import Mathlib

/-!
Verification of the rock/grain counting core (`backend/rock_count.py`).

The pipeline is decode → binarize → clean → separate-and-label → count.
The repository code orchestrates calls into external libraries (OpenCV,
scikit-image, scipy, the base64 module).  Those libraries are not part of
the repository, so they are modelled as an injected record of functions
(`ExternalLib`); every injected call is `Except`-valued because any Python
call may raise, and the orchestrator's `try/except` blocks are translated
as matches on `Except`.  The area-filtering loops, the data-URL envelope
matcher, the control flow of every function of the module, and the
connected-component labeling (specified in §4.4 of the design document)
are embedded concretely.  Machine floats of the source (the
`max_area_frac` parameter and the distance field) are modelled as
rationals.
-/

/-- A decoded BGR color image (`numpy` array of 3-channel pixels). -/
abbrev Image := List (List (Nat × Nat × Nat))

/-- Single channel 8-bit grayscale grid. -/
abbrev GrayGrid := List (List Nat)

/-- Binary mask; `true` is a foreground (candidate object) pixel.  The
source keeps `uint8` values 0/255; only the zero/nonzero distinction is
ever consumed, which the booleans model. -/
abbrev Mask := List (List Bool)

/-- Morphological structuring element. -/
abbrev Kernel := List (List Bool)

/-- Distance field (float values of `distance_transform_edt`, modelled as
rationals; only negation is ever applied to them inside the module). -/
abbrev DistGrid := List (List ℚ)

/-- Marker grid for watershed seeds (`int32` in the source). -/
abbrev MarkerGrid := List (List Nat)

/-- Label grid produced by the watershed: 0 is background, positive values
are region ids. -/
abbrev LabelGrid := List (List Nat)

/-- Morphological operation selector (`cv2.MORPH_OPEN` / `cv2.MORPH_CLOSE`). -/
inductive MorphOp where
  | opening
  | closing
deriving DecidableEq

/-- Result record returned by `count_rocks`. -/
structure AnalysisResult where
  count : Nat
  method : String
  error : Option String
deriving DecidableEq

/-- External dependencies of `rock_count.py` (OpenCV, the base64 module,
and the optional scikit-image/scipy stack).  None of these functions is
code of the repository; each field stands for one call site.  Fields are
`Except`-valued because any external call may raise, except `imdecode`,
which returns `None` on failure in the source (`cv2.imdecode`).
`skimageAvailable` is the module-level `SKIMAGE_AVAILABLE` capability flag
computed from the optional import. -/
structure ExternalLib where
  b64decode : List Char → Except String (List Nat)
  imdecode : List Nat → Option Image
  cvtColor : Image → Except String GrayGrid
  gaussianBlur : GrayGrid → Nat → Nat → Except String GrayGrid
  thresholdOtsuInv : GrayGrid → Except String Mask
  thresholdFixedInv : GrayGrid → Nat → Except String Mask
  getStructuringElement : Nat → Nat → Except String Kernel
  morphologyEx : Mask → MorphOp → Kernel → Except String Mask
  skimageAvailable : Bool
  distanceTransform : Mask → Except String DistGrid
  peakLocalMax : DistGrid → Nat → Except String (List (Nat × Nat))
  watershedFn : DistGrid → MarkerGrid → Mask → Except String LabelGrid

/-- Python whitespace characters stripped by `str.strip()` (ASCII part). -/
def pySpace (c : Char) : Bool :=
  c = ' ' || c = '\t' || c = '\n' || c = '\r' || c = Char.ofNat 11 || c = Char.ofNat 12

/-- Python `str.strip()`: remove leading and trailing whitespace. -/
def pyStrip (s : List Char) : List Char :=
  ((s.dropWhile pySpace).reverse.dropWhile pySpace).reverse

/-- The fixed characters `data:image/` of the envelope pattern. -/
def dataImageMarker : List Char := "data:image/".toList

/-- The fixed characters `;base64,` of the envelope pattern. -/
def base64Marker : List Char := ";base64,".toList

/-- Semantics of `re.match(r"data:image/[^;]+;base64,(.+)", s)`: the
anchored pattern needs the literal `data:image/`, then one or more
characters other than `;` (greedy, and the following literal `;` makes the
maximal munch the only possible one), then the literal `;base64,`, then
`(.+)` — one or more characters other than a newline (`.` does not match
`\n`), matched greedily; the function returns the text captured by the
group, or `none` when the pattern does not match. -/
def dataUrlGroup (s : List Char) : Option (List Char) :=
  if dataImageMarker.isPrefixOf s then
    let r := s.drop dataImageMarker.length
    let sub := r.takeWhile (fun c => c ≠ ';')
    let r2 := r.dropWhile (fun c => c ≠ ';')
    if sub.isEmpty then none
    else if base64Marker.isPrefixOf r2 then
      let g := (r2.drop base64Marker.length).takeWhile (fun c => c ≠ '\n')
      if g.isEmpty then none else some g
    else none
  else none

/-- Tail of `_decode_image`: interpret the byte buffer as an image via
`cv2.imdecode`; `None` becomes the `ValueError("Could not decode image")`. -/
def finishImage (lib : ExternalLib) (dataE : Except String (List Nat)) :
    Except String Image :=
  match dataE with
  | .error e => .error e
  | .ok data =>
    match lib.imdecode data with
    | none => .error "Could not decode image"
    | some img => .ok img

/-- Translation of `_decode_image`: raw bytes are used directly; a text
payload is stripped, and either matched against the data-URL envelope
(pattern failure raises `ValueError("Invalid data URL")`, success
base64-decodes the captured group) or base64-decoded whole. -/
def _decode_image (lib : ExternalLib) (data_url_or_bytes : List Nat ⊕ String) :
    Except String Image :=
  let dataE : Except String (List Nat) :=
    match data_url_or_bytes with
    | .inl b => .ok b
    | .inr str =>
      let s := pyStrip str.toList
      if "data:".toList.isPrefixOf s then
        match dataUrlGroup s with
        | none => .error "Invalid data URL"
        | some g => lib.b64decode g
      else
        lib.b64decode s
  finishImage lib dataE

/-- Translation of `_get_binary_mask`: grayscale conversion, an optional
Gaussian blur with kernel size `blur_radius | 1` in both dimensions when
`blur_radius > 0`, then inverted Otsu (or fixed-127) thresholding. -/
def _get_binary_mask (lib : ExternalLib) (bgr : Image) (blur_radius : Int)
    (use_otsu : Bool) : Except String Mask := do
  let gray ← lib.cvtColor bgr
  let gray ←
    if 0 < blur_radius then
      lib.gaussianBlur gray (blur_radius.toNat ||| 1) (blur_radius.toNat ||| 1)
    else
      pure gray
  if use_otsu then lib.thresholdOtsuInv gray else lib.thresholdFixedInv gray 127

/-- Translation of `_morphology_cleanup`: build elliptical structuring
elements of size `2·radius+1` and apply opening then closing, once each. -/
def _morphology_cleanup (lib : ExternalLib) (mask : Mask)
    (open_radius close_radius : Nat) : Except String Mask := do
  let kernel_open ← lib.getStructuringElement (open_radius * 2 + 1) (open_radius * 2 + 1)
  let kernel_close ← lib.getStructuringElement (close_radius * 2 + 1) (close_radius * 2 + 1)
  let mask ← lib.morphologyEx mask .opening kernel_open
  lib.morphologyEx mask .closing kernel_close

/-- A pixel coordinate (row, column). -/
abbrev Cell := Nat × Nat

/-- Foreground coordinates of one row, columns numbered from `c`. -/
def rowCells (r : Nat) : Nat → List Bool → List Cell
  | _, [] => []
  | c, b :: bs => (if b then [(r, c)] else []) ++ rowCells r (c + 1) bs

/-- Foreground coordinates of the rows of a mask, rows numbered from `r`. -/
def maskCellsFrom : Nat → Mask → List Cell
  | _, [] => []
  | r, row :: rows => rowCells r 0 row ++ maskCellsFrom (r + 1) rows

/-- All foreground pixel coordinates of a mask, in row-major order. -/
def maskCells (m : Mask) : List Cell := maskCellsFrom 0 m

/-- 8-neighbour adjacency of two distinct pixels. -/
def adj8 (p q : Cell) : Bool :=
  decide (p ≠ q) && decide (Nat.dist p.1 q.1 ≤ 1) && decide (Nat.dist p.2 q.2 ≤ 1)

/-- Two pixel groups touch when some pixels of each are 8-adjacent. -/
def touches (a b : List Cell) : Bool :=
  a.any fun p => b.any fun q => adj8 p q

/-- Remove the first group touching `c`, returning it and the remainder. -/
def extractTouching (c : List Cell) : List (List Cell) → Option (List Cell × List (List Cell))
  | [] => none
  | d :: rest =>
    if touches c d then some (d, rest)
    else
      match extractTouching c rest with
      | some dr => some (dr.1, d :: dr.2)
      | none => none

/-- One merging step: fuse the first pair of touching groups, if any. -/
def mergeOne : List (List Cell) → Option (List (List Cell))
  | [] => none
  | c :: rest =>
    match extractTouching c rest with
    | some dr => some ((c ++ dr.1) :: dr.2)
    | none =>
      match mergeOne rest with
      | some rest2 => some (c :: rest2)
      | none => none

/-- Merge touching groups to a fixpoint; each successful step removes one
group, so the initial number of groups bounds the steps needed. -/
def mergeAll : Nat → List (List Cell) → List (List Cell)
  | 0, comps => comps
  | fuel + 1, comps =>
    match mergeOne comps with
    | some comps2 => mergeAll fuel comps2
    | none => comps

/-- Modelled from the spec: the 8-connected components of the foreground of
a mask, the labeling work done by the external `cv2.connectedComponentsWithStats`
call (§4.4: group foreground pixels by 8-neighbour reachability).  Start
from singleton groups and fuse touching groups until none touch. -/
def ccComponents (m : Mask) : List (List Cell) :=
  let singles := (maskCells m).map (fun p => [p])
  mergeAll singles.length singles

/-- Pixel areas of the components, in label order 1..K. -/
def ccAreas (m : Mask) : List Nat := (ccComponents m).map List.length

/-- Modelled from the spec: `cv2.connectedComponentsWithStats` is an
external dependency that is not part of the repository; §4.4 specifies
8-connected labeling with dense labels 1..K, background label 0, and a
pixel-area statistic per label.  `num_labels` counts the background label;
the list holds the areas of labels 1..K (row `i` of the `stats` array is
entry `i - 1`). -/
def connectedComponentsWithStats (m : Mask) : Nat × List Nat :=
  ((ccAreas m).length + 1, ccAreas m)

/-- Number of rows (`mask.shape[0]`). -/
def height (m : List (List α)) : Nat := m.length

/-- Number of columns (`mask.shape[1]`, the common row length). -/
def width (m : List (List α)) : Nat := (m.headD []).length

/-- Python `int()` applied to a float: truncation toward zero. -/
def pyInt (q : ℚ) : Int := if 0 ≤ q then ⌊q⌋ else ⌈q⌉

/-- Translation of `count_with_connected_components`: label the mask,
compute `max_area_px = int(h * w * max_area_frac)`, and count the labels
`1 ≤ i < num_labels` whose area lies in the inclusive band. -/
def count_with_connected_components (mask : Mask) (min_area_px : Int)
    (max_area_frac : ℚ) : Nat :=
  let h := height mask
  let w := width mask
  let total := h * w
  let max_area_px : Int := pyInt ((total : ℚ) * max_area_frac)
  let nstats := connectedComponentsWithStats mask
  let num_labels := nstats.1
  let stats := nstats.2
  (List.range' 1 (num_labels - 1)).foldl
    (fun count i =>
      let area : Int := (stats.getD (i - 1) 0 : Nat)
      if min_area_px ≤ area ∧ area ≤ max_area_px then count + 1 else count)
    0

/-- Element-wise value lookup with the numpy out-of-range default 0
(used only to state properties, not by the translation itself). -/
def labelAt (g : LabelGrid) (r c : Nat) : Nat :=
  (((g.get? r).getD []).get? c).getD 0

/-- Mask lookup; positions outside the grid count as background. -/
def maskAt (m : Mask) (r c : Nat) : Bool :=
  (((m.get? r).getD []).get? c).getD false

/-- An all-zero `int32` grid of the mask's shape (`np.zeros_like`). -/
def zerosLike (m : Mask) : MarkerGrid :=
  m.map fun row => row.map fun _ => 0

/-- Functional update of one grid entry (out-of-range writes cannot occur
in the source because the peak coordinates index the same array). -/
def set2d (g : MarkerGrid) (r c v : Nat) : MarkerGrid :=
  g.set r ((g.getD r []).set c v)

/-- Marker construction of `count_with_watershed`: each peak coordinate
receives a unique id in discovery order, starting at 1
(`enumerate(coords, start=1)`). -/
def buildMarkers (mask : Mask) (coords : List Cell) : MarkerGrid :=
  (coords.foldl (fun acc rc => (set2d acc.1 rc.1 rc.2 acc.2, acc.2 + 1))
    ((zerosLike mask, 1) : MarkerGrid × Nat)).1

/-- Negation of the distance field (`-dist`). -/
def negGrid (d : DistGrid) : DistGrid := d.map fun row => row.map fun q => -q

/-- The counting loop at the end of `count_with_watershed`: iterate over
`np.unique(labels_ws)`, skip label 0, compute each label's pixel area with
`np.sum(labels_ws == uid)`, and count areas inside the inclusive band
derived from the mask's shape.  `np.unique` returns each occurring value
once; the loop's result does not depend on the enumeration order. -/
def watershedCount (labels_ws : LabelGrid) (mask : Mask) (min_area_px : Int)
    (max_area_frac : ℚ) : Nat :=
  let h := height mask
  let w := width mask
  let total := h * w
  let max_area_px : Int := pyInt ((total : ℚ) * max_area_frac)
  (labels_ws.flatten.dedup).foldl
    (fun count uid =>
      if uid = 0 then count
      else
        let area : Int := (labels_ws.flatten.count uid : Nat)
        if min_area_px ≤ area ∧ area ≤ max_area_px then count + 1 else count)
    0

/-- Translation of `count_with_watershed`: delegate to the
connected-component strategy when scikit-image is unavailable; otherwise
compute the distance field, find peak markers (delegating again when no
peaks are found), run the watershed on the negated distance field
restricted to the mask, and count the labels by area band. -/
def count_with_watershed (lib : ExternalLib) (mask : Mask) (min_distance : Nat)
    (min_area_px : Int) (max_area_frac : ℚ) : Except String Nat :=
  if lib.skimageAvailable = false then
    .ok (count_with_connected_components mask min_area_px max_area_frac)
  else do
    let dist ← lib.distanceTransform mask
    let coords ← lib.peakLocalMax dist min_distance
    if coords.isEmpty then
      .ok (count_with_connected_components mask min_area_px max_area_frac)
    else do
      let labels_ws ← lib.watershedFn (negGrid dist) (buildMarkers mask coords) mask
      .ok (watershedCount labels_ws mask min_area_px max_area_frac)

/-- The input accepted by `count_rocks`: an already decoded numpy array, a
raw byte buffer, or a text payload (the three `isinstance` cases). -/
inductive ImageInput where
  | ndarray (img : Image)
  | bytes (data : List Nat)
  | text (s : String)

/-- Decode checkpoint of `count_rocks`: an ndarray input is used directly,
anything else goes through `_decode_image`. -/
def imageStage (lib : ExternalLib) (input : ImageInput) : Except String Image :=
  match input with
  | .ndarray img => .ok img
  | .bytes b => _decode_image lib (.inl b)
  | .text s => _decode_image lib (.inr s)

/-- Binarize-and-clean prefix of the processing block of `count_rocks`
(`use_otsu=True`, open radius 2, close radius 3 as in the source). -/
def maskStage (lib : ExternalLib) (img : Image) (blur : Int) :
    Except String Mask := do
  let mask ← _get_binary_mask lib img blur true
  _morphology_cleanup lib mask 2 3

/-- The whole `try` block of `count_rocks`: produce the mask, then select
the strategy with `use_watershed and SKIMAGE_AVAILABLE` and pair the count
with the reported method label. -/
def processStage (lib : ExternalLib) (img : Image) (blur : Int)
    (use_watershed : Bool) (min_area_px : Int) (max_area_frac : ℚ)
    (watershed_min_distance : Nat) : Except String (Nat × String) := do
  let mask ← maskStage lib img blur
  if use_watershed && lib.skimageAvailable then
    let count ← count_with_watershed lib mask watershed_min_distance min_area_px max_area_frac
    pure (count, "watershed")
  else
    pure (count_with_connected_components mask min_area_px max_area_frac,
      "connected_components")

/-- Translation of `count_rocks`: the decode `try/except` and the
processing `try/except`, each failure converted to
`{count: 0, method: "none", error: message}`. -/
def count_rocks (lib : ExternalLib) (image_input : ImageInput) (blur : Int)
    (use_watershed : Bool) (min_area_px : Int) (max_area_frac : ℚ)
    (watershed_min_distance : Nat) : AnalysisResult :=
  match imageStage lib image_input with
  | .error e => ⟨0, "none", some e⟩
  | .ok img =>
    match processStage lib img blur use_watershed min_area_px max_area_frac
        watershed_min_distance with
    | .error e => ⟨0, "none", some e⟩
    | .ok cm => ⟨cm.1, cm.2, none⟩

/-- Does a mask contain no foreground pixel at all? -/
def noFg (m : Mask) : Bool := m.all fun row => row.all fun b => !b

/-- Modelled from the spec: totality of the scikit-image/scipy calls.  The
external `distance_transform_edt`, `peak_local_max` and `watershed`
functions are not part of the repository; §4.5 describes them as total
computations on their grids (no failure mode is specified for them), so a
faithful environment returns a value rather than raising. -/
def SkiTotal (lib : ExternalLib) : Prop :=
  (∀ m, ∃ d, lib.distanceTransform m = .ok d) ∧
  (∀ d n, ∃ cs, lib.peakLocalMax d n = .ok cs) ∧
  (∀ d mk m, ∃ ls, lib.watershedFn d mk m = .ok ls)

/-- Modelled from the spec: §4.5 states the watershed flood is
"constrained to pixels where BinaryMask is true; unmarked far background
stays label 0", which is also the documented behaviour of
`skimage.morphology.watershed` with a `mask` argument.  Every background
position of the mask therefore carries label 0 in the output. -/
def WatershedZeroOffMask (lib : ExternalLib) : Prop :=
  ∀ d mk m ls, lib.watershedFn d mk m = .ok ls →
    ∀ r c, maskAt m r c = false → labelAt ls r c = 0

/-- A concrete all-zero labeling function used by the example environments. -/
def zeroWatershed (_d : DistGrid) (_mk : MarkerGrid) (m : Mask) :
    Except String LabelGrid :=
  .ok (m.map fun row => row.map fun _ => 0)

/-- A concrete environment: scikit-image available, a blur and morphology
that leave grids unchanged, an Otsu threshold producing an all-background
1×1 mask, an all-zero distance transform, and no local maxima anywhere. -/
def exLib : ExternalLib where
  b64decode := fun _ => .error "bad base64"
  imdecode := fun _ => none
  cvtColor := fun _ => .ok [[0]]
  gaussianBlur := fun g _ _ => .ok g
  thresholdOtsuInv := fun _ => .ok [[false]]
  thresholdFixedInv := fun _ _ => .ok [[false]]
  getStructuringElement := fun _ _ => .ok [[true]]
  morphologyEx := fun m _ _ => .ok m
  skimageAvailable := true
  distanceTransform := fun m => .ok (m.map fun row => row.map fun _ => 0)
  peakLocalMax := fun _ _ => .ok []
  watershedFn := zeroWatershed

/-- A second concrete environment whose threshold produces a 1×1
all-foreground mask; the distance field has no local maxima, so the
watershed strategy delegates to connected components. -/
def cexLib : ExternalLib where
  b64decode := fun _ => .error "bad base64"
  imdecode := fun _ => none
  cvtColor := fun _ => .ok [[0]]
  gaussianBlur := fun g _ _ => .ok g
  thresholdOtsuInv := fun _ => .ok [[true]]
  thresholdFixedInv := fun _ _ => .ok [[true]]
  getStructuringElement := fun _ _ => .ok [[true]]
  morphologyEx := fun m _ _ => .ok m
  skimageAvailable := true
  distanceTransform := fun m => .ok (m.map fun row => row.map fun _ => 0)
  peakLocalMax := fun _ _ => .ok []
  watershedFn := zeroWatershed

/-- A concrete 1×1 input image for the example runs. -/
def exImg : Image := [[(0, 0, 0)]]

theorem odd_lor_one (n : Nat) : Odd (n ||| 1) := by
  have h : (n ||| 1).testBit 0 = true := by
    rw [Nat.testBit_lor]
    simp
  rw [Nat.testBit_zero] at h
  exact Nat.odd_iff.mpr (of_decide_eq_true h)

theorem one_le_lor_one (n : Nat) : 1 ≤ n ||| 1 := by
  rcases odd_lor_one n with ⟨k, hk⟩
  omega

theorem foldl_count_eq_countP {α : Type} (P : α → Prop) [DecidablePred P]
    (xs : List α) (acc : Nat) :
    xs.foldl (fun c a => if P a then c + 1 else c) acc
      = acc + xs.countP (fun a => decide (P a)) := by
  induction xs generalizing acc with
  | nil => simp
  | cons a t ih =>
    rw [List.foldl_cons, List.countP_cons, ih]
    by_cases h : P a
    · simp [h]
      omega
    · simp [h]

theorem range'_map_getD (l : List Nat) (d : Nat) :
    ∀ s, (List.range' s l.length).map (fun i => l.getD (i - s) d) = l := by
  induction l with
  | nil => intro s; simp
  | cons a t ih =>
    intro s
    rw [List.length_cons, List.range'_succ s t.length 1, List.map_cons]
    congr 1
    · simp
    · rw [List.map_congr_left (g := fun i => t.getD (i - (s + 1)) d), ih (s + 1)]
      intro i hi
      rcases List.mem_range'.mp hi with ⟨k, _, hik⟩
      have h1 : i - s = (i - (s + 1)) + 1 := by omega
      rw [h1]
      simp

theorem extractTouching_perm (c : List Cell) :
    ∀ {cs : List (List Cell)} {dr : List Cell × List (List Cell)},
    extractTouching c cs = some dr → cs.Perm (dr.1 :: dr.2) := by
  intro cs
  induction cs with
  | nil =>
    intro dr h
    simp [extractTouching] at h
  | cons d rest ih =>
    intro dr h
    rw [extractTouching] at h
    by_cases ht : touches c d = true
    · rw [if_pos ht] at h
      injection h with h
      subst h
      exact List.Perm.refl _
    · rw [if_neg ht] at h
      rcases he : extractTouching c rest with _ | dr2
      · rw [he] at h
        exact absurd h (by simp)
      · rw [he] at h
        injection h with h
        subst h
        exact ((ih he).cons d).trans (List.Perm.swap _ _ _)

theorem mergeOne_flatten_perm : ∀ {cs cs2 : List (List Cell)},
    mergeOne cs = some cs2 → cs2.flatten.Perm cs.flatten := by
  intro cs
  induction cs with
  | nil =>
    intro cs2 h
    simp [mergeOne] at h
  | cons c rest ih =>
    intro cs2 h
    rw [mergeOne] at h
    rcases hf : extractTouching c rest with _ | dr
    · rw [hf] at h
      rcases hm : mergeOne rest with _ | rest2
      · rw [hm] at h
        exact absurd h (by simp)
      · rw [hm] at h
        injection h with h
        subst h
        rw [List.flatten_cons, List.flatten_cons]
        exact (ih hm).append_left c
    · rw [hf] at h
      injection h with h
      subst h
      have hperm : rest.flatten.Perm (dr.1 ++ dr.2.flatten) := by
        have h2 := (extractTouching_perm c hf).flatten
        rwa [List.flatten_cons] at h2
      rw [List.flatten_cons, List.flatten_cons, List.append_assoc]
      exact (hperm.append_left c).symm

theorem mergeAll_flatten_perm :
    ∀ (fuel : Nat) (cs : List (List Cell)),
    (mergeAll fuel cs).flatten.Perm cs.flatten := by
  intro fuel
  induction fuel with
  | zero => intro cs; exact List.Perm.refl _
  | succ fuel ih =>
    intro cs
    rw [mergeAll]
    rcases hm : mergeOne cs with _ | cs2
    · exact List.Perm.refl _
    · exact (ih cs2).trans (mergeOne_flatten_perm hm)

theorem flatten_map_singleton (l : List Cell) :
    (l.map fun p => [p]).flatten = l := by
  induction l with
  | nil => rfl
  | cons a t ih => simp [ih]

theorem ccComponents_flatten_perm (m : Mask) :
    (ccComponents m).flatten.Perm (maskCells m) := by
  simp only [ccComponents]
  exact (mergeAll_flatten_perm _ _).trans (by rw [flatten_map_singleton])

theorem mergeOne_ne_nil : ∀ {cs cs2 : List (List Cell)},
    mergeOne cs = some cs2 → (∀ x ∈ cs, x ≠ []) → ∀ x ∈ cs2, x ≠ [] := by
  intro cs
  induction cs with
  | nil =>
    intro cs2 h
    simp [mergeOne] at h
  | cons c rest ih =>
    intro cs2 h hall x hx
    rw [mergeOne] at h
    rcases hf : extractTouching c rest with _ | dr
    · rw [hf] at h
      rcases hm : mergeOne rest with _ | rest2
      · rw [hm] at h
        exact absurd h (by simp)
      · rw [hm] at h
        injection h with h
        subst h
        rcases List.mem_cons.mp hx with h1 | h1
        · subst h1
          exact hall x (List.mem_cons_self _ _)
        · exact ih hm (fun y hy => hall y (List.mem_cons_of_mem _ hy)) x h1
    · rw [hf] at h
      injection h with h
      subst h
      have hrest : ∀ y ∈ dr.1 :: dr.2, y ≠ [] := fun y hy =>
        hall y (List.mem_cons_of_mem _ ((extractTouching_perm c hf).mem_iff.mpr hy))
      rcases List.mem_cons.mp hx with h1 | h1
      · subst h1
        intro hcd
        rcases List.append_eq_nil.mp hcd with ⟨hc, _⟩
        exact hall c (List.mem_cons_self _ _) hc
      · exact hrest x (List.mem_cons_of_mem _ h1)

theorem mergeAll_ne_nil :
    ∀ (fuel : Nat) (cs : List (List Cell)), (∀ x ∈ cs, x ≠ []) →
    ∀ x ∈ mergeAll fuel cs, x ≠ [] := by
  intro fuel
  induction fuel with
  | zero => intro cs hall; exact hall
  | succ fuel ih =>
    intro cs hall
    rw [mergeAll]
    rcases hm : mergeOne cs with _ | cs2
    · exact hall
    · exact ih cs2 (mergeOne_ne_nil hm hall)

theorem ccAreas_pos (m : Mask) : ∀ a ∈ ccAreas m, 1 ≤ a := by
  intro a ha
  simp only [ccAreas] at ha
  rcases List.mem_map.mp ha with ⟨comp, hc, rfl⟩
  have hne : comp ≠ [] := by
    simp only [ccComponents] at hc
    refine mergeAll_ne_nil _ _ ?_ comp hc
    intro x hx
    rcases List.mem_map.mp hx with ⟨p, _, rfl⟩
    simp
  have hpos := List.length_pos.mpr hne
  omega

theorem foldl_range'_count (P : Nat → Prop) [DecidablePred P] (l : List Nat) :
    (List.range' 1 l.length).foldl
      (fun c i => if P (l.getD (i - 1) 0) then c + 1 else c) 0
      = l.countP (fun a => decide (P a)) := by
  have h1 : (List.range' 1 l.length).foldl
      (fun c i => if P (l.getD (i - 1) 0) then c + 1 else c) 0
      = ((List.range' 1 l.length).map (fun i => l.getD (i - 1) 0)).foldl
        (fun c a => if P a then c + 1 else c) 0 :=
    (List.foldl_map (fun i => l.getD (i - 1) 0)
      (fun c a => if P a then c + 1 else c) (List.range' 1 l.length) 0).symm
  rw [h1, range'_map_getD l 0 1, foldl_count_eq_countP, Nat.zero_add]

theorem cc_count_eq_countP (m : Mask) (minA : Int) (frac : ℚ) :
    count_with_connected_components m minA frac
      = (ccAreas m).countP (fun a : Nat => decide (minA ≤ (a : Int) ∧
          (a : Int) ≤ pyInt (((height m * width m : ℕ) : ℚ) * frac))) := by
  simp only [count_with_connected_components, connectedComponentsWithStats,
    Nat.add_sub_cancel]
  exact foldl_range'_count
    (fun a : Nat => minA ≤ (a : Int) ∧
      (a : Int) ≤ pyInt (((height m * width m : ℕ) : ℚ) * frac))
    (ccAreas m)

theorem rowCells_nil_of_allFalse (r : Nat) :
    ∀ (c : Nat) (row : List Bool), row.all (fun b => !b) = true →
    rowCells r c row = [] := by
  intro c row
  induction row generalizing c with
  | nil => intro _; rfl
  | cons b bs ih =>
    intro h
    rw [List.all_cons, Bool.and_eq_true] at h
    rw [rowCells]
    have hb : b = false := by
      rcases h with ⟨h1, _⟩
      cases b
      · rfl
      · exact absurd h1 (by simp)
    subst hb
    simp [ih (c + 1) h.2]

theorem maskCells_nil_of_noFg :
    ∀ (r : Nat) (m : Mask), noFg m = true → maskCellsFrom r m = [] := by
  intro r m
  induction m generalizing r with
  | nil => intro _; rfl
  | cons row rows ih =>
    intro h
    rw [noFg, List.all_cons, Bool.and_eq_true] at h
    rw [maskCellsFrom, rowCells_nil_of_allFalse r 0 row h.1, ih (r + 1) h.2]
    rfl

theorem ccAreas_nil_of_noFg (m : Mask) (h : noFg m = true) : ccAreas m = [] := by
  have h1 : maskCells m = [] := maskCells_nil_of_noFg 0 m h
  simp [ccAreas, ccComponents, h1, mergeAll]

theorem cc_zero_of_noFg (m : Mask) (h : noFg m = true) (minA : Int) (frac : ℚ) :
    count_with_connected_components m minA frac = 0 := by
  rw [cc_count_eq_countP, ccAreas_nil_of_noFg m h]
  rfl

theorem maskAt_false_of_noFg (m : Mask) (h : noFg m = true) (r c : Nat) :
    maskAt m r c = false := by
  rw [maskAt]
  rcases hr : m.get? r with _ | row
  · rfl
  · have hrow : row ∈ m := List.get?_mem hr
    rw [noFg, List.all_eq_true] at h
    have hall := h row hrow
    rw [List.all_eq_true] at hall
    rcases hc : row.get? c with _ | b
    · rw [List.get?_eq_getElem?] at hc
      simp [hr, hc]
    · have hb := hall b (List.get?_mem hc)
      have hb2 : b = false := by
        cases b
        · rfl
        · exact absurd hb (by simp)
      rw [List.get?_eq_getElem?] at hc
      simp [hr, hc, hb2]

theorem flatten_zero_of_labelAt (g : LabelGrid)
    (h : ∀ r c, labelAt g r c = 0) : ∀ v ∈ g.flatten, v = 0 := by
  intro v hv
  rcases List.mem_flatten.mp hv with ⟨row, hrow, hvrow⟩
  rcases List.get?_of_mem hrow with ⟨r, hr⟩
  rcases List.get?_of_mem hvrow with ⟨c, hc⟩
  have := h r c
  rw [labelAt, hr] at this
  simp only [Option.getD_some] at this
  rw [hc] at this
  simpa using this

theorem watershedCount_zero (g : LabelGrid) (mask : Mask) (minA : Int)
    (frac : ℚ) (h : ∀ v ∈ g.flatten, v = 0) :
    watershedCount g mask minA frac = 0 := by
  simp only [watershedCount]
  have hded : ∀ v ∈ g.flatten.dedup, v = 0 := fun v hv =>
    h v (List.mem_dedup.mp hv)
  generalize g.flatten.dedup = l at hded
  induction l with
  | nil => rfl
  | cons v t ih =>
    have hv : v = 0 := hded v (List.mem_cons_self _ _)
    subst hv
    rw [List.foldl_cons, if_pos rfl]
    exact ih (fun y hy => hded y (List.mem_cons_of_mem _ hy))

theorem labelAt_zerosLike (m : Mask) (r c : Nat) :
    labelAt (m.map fun row => row.map fun _ => 0) r c = 0 := by
  simp only [labelAt, List.get?_eq_getElem?, List.getElem?_map]
  rcases hr : m[r]? with _ | row
  · simp [hr]
  · simp only [hr, Option.map_some', Option.getD_some, List.getElem?_map]
    rcases hc : row[c]? with _ | b
    · simp [hc]
    · simp [hc]

theorem zeroWatershed_off_mask :
    ∀ d mk m ls, zeroWatershed d mk m = .ok ls →
    ∀ r c, maskAt m r c = false → labelAt ls r c = 0 := by
  intro d mk m ls h r c _
  rw [zeroWatershed] at h
  injection h with h
  subst h
  exact labelAt_zerosLike m r c

theorem finishImage_congr (lib lib2 : ExternalLib)
    (hi : lib2.imdecode = lib.imdecode) (d : Except String (List Nat)) :
    finishImage lib2 d = finishImage lib d := by
  rw [finishImage.eq_def, finishImage.eq_def, hi]

theorem imageStage_congr (lib lib2 : ExternalLib)
    (hb : lib2.b64decode = lib.b64decode) (hi : lib2.imdecode = lib.imdecode)
    (input : ImageInput) : imageStage lib2 input = imageStage lib input := by
  cases input with
  | ndarray img => rfl
  | bytes b =>
    simp only [imageStage, _decode_image, hb]
    exact finishImage_congr lib lib2 hi _
  | text s =>
    simp only [imageStage, _decode_image, hb]
    exact finishImage_congr lib lib2 hi _

theorem processStage_method (lib : ExternalLib) (img : Image) (blur : Int)
    (uw : Bool) (minA : Int) (frac : ℚ) (md : Nat) (cm : Nat × String)
    (h : processStage lib img blur uw minA frac md = .ok cm) :
    cm.2 = if (uw && lib.skimageAvailable) = true then "watershed"
      else "connected_components" := by
  rw [processStage] at h
  rcases hM : maskStage lib img blur with e | mask
  · rw [hM] at h
    simp [Bind.bind, Except.bind] at h
  · rw [hM] at h
    simp only [Bind.bind, Except.bind] at h
    cases hb : (uw && lib.skimageAvailable) with
    | false =>
      simp only [hb, Bool.false_eq_true, if_false] at h ⊢
      simp only [pure, Except.pure, Except.ok.injEq] at h
      rw [← h]
    | true =>
      simp only [hb, if_true] at h ⊢
      rcases hW : count_with_watershed lib mask md minA frac with e | c
      · rw [hW] at h
        simp [Bind.bind, Except.bind] at h
      · rw [hW] at h
        simp only [Bind.bind, Except.bind, pure, Except.pure, Except.ok.injEq] at h
        rw [← h]

theorem isPrefixOf_append_self (p t : List Char) : p.isPrefixOf (p ++ t) = true :=
  List.isPrefixOf_iff_prefix.mpr (List.prefix_append p t)

theorem takeWhile_append_stop (p : Char → Bool) :
    ∀ (a : List Char) (y : Char) (t : List Char), (∀ x ∈ a, p x = true) →
    p y = false → (a ++ y :: t).takeWhile p = a := by
  intro a
  induction a with
  | nil =>
    intro y t _ hy
    simp [List.takeWhile_cons, hy]
  | cons x a2 ih =>
    intro y t ha hy
    have hx := ha x (List.mem_cons_self _ _)
    rw [List.cons_append, List.takeWhile_cons, hx, if_pos rfl]
    rw [ih y t (fun z hz => ha z (List.mem_cons_of_mem _ hz)) hy]

theorem dropWhile_append_stop (p : Char → Bool) :
    ∀ (a : List Char) (y : Char) (t : List Char), (∀ x ∈ a, p x = true) →
    p y = false → (a ++ y :: t).dropWhile p = y :: t := by
  intro a
  induction a with
  | nil =>
    intro y t _ hy
    simp [List.dropWhile_cons, hy]
  | cons x a2 ih =>
    intro y t ha hy
    have hx := ha x (List.mem_cons_self _ _)
    rw [List.cons_append, List.dropWhile_cons, hx]
    simp only [if_true]
    exact ih y t (fun z hz => ha z (List.mem_cons_of_mem _ hz)) hy

theorem dataUrlGroup_some (sub rest : List Char)
    (hsub : sub ≠ []) (hsemi : ∀ c ∈ sub, c ≠ ';') (hrest : rest ≠ [])
    (hnl : ∀ c ∈ rest, c ≠ '\n') :
    dataUrlGroup (dataImageMarker ++ (sub ++ (base64Marker ++ rest))) = some rest := by
  rw [dataUrlGroup]
  rw [if_pos (isPrefixOf_append_self dataImageMarker (sub ++ (base64Marker ++ rest)))]
  rw [List.drop_left dataImageMarker (sub ++ (base64Marker ++ rest))]
  have hcons : sub ++ (base64Marker ++ rest) = sub ++ ';' :: ("base64,".toList ++ rest) := rfl
  rw [hcons]
  simp only []
  have hsemiB : ∀ x ∈ sub, (fun c => decide (c ≠ ';')) x = true := by
    intro x hx
    exact decide_eq_true (hsemi x hx)
  rw [takeWhile_append_stop _ sub ';' ("base64,".toList ++ rest) hsemiB (by decide)]
  rw [dropWhile_append_stop _ sub ';' ("base64,".toList ++ rest) hsemiB (by decide)]
  have hsubE : sub.isEmpty = false := by
    cases sub
    · exact absurd rfl hsub
    · rfl
  rw [hsubE]
  simp only [Bool.false_eq_true, if_false]
  have hcons2 : (';' :: ("base64,".toList ++ rest)) = base64Marker ++ rest := rfl
  rw [hcons2]
  rw [if_pos (isPrefixOf_append_self base64Marker rest)]
  rw [List.drop_left base64Marker rest]
  have hrestW : rest.takeWhile (fun c => decide (c ≠ '\n')) = rest := by
    rw [List.takeWhile_eq_self_iff]
    intro x hx
    exact decide_eq_true (hnl x hx)
  rw [hrestW]
  have hrestE : rest.isEmpty = false := by
    cases rest
    · exact absurd rfl hrest
    · rfl
  rw [hrestE]
  rfl

theorem data_isPrefixOf (X : List Char) :
    "data:".toList.isPrefixOf (dataImageMarker ++ X) = true := by
  have h : dataImageMarker ++ X = "data:".toList ++ ("image/".toList ++ X) := rfl
  rw [h]
  exact isPrefixOf_append_self _ _

/-- C2: every failure of `count_rocks` — a decode error or any failure
anywhere in the binarize/clean/separate/count unit — is caught and
converted to the record `{count: 0, method: "none", error: message}`;
`count_rocks` is a total function of its inputs (it never raises), and on
a decode failure it returns that record immediately, independently of
every non-decode stage of the environment (no further stage runs). -/
theorem count_rocks_total_error_policy (lib : ExternalLib) (input : ImageInput)
    (blur : Int) (uw : Bool) (minA : Int) (frac : ℚ) (md : Nat) :
    ((count_rocks lib input blur uw minA frac md).error = none ∨
      ∃ e, count_rocks lib input blur uw minA frac md = ⟨0, "none", some e⟩) ∧
    (∀ e, imageStage lib input = .error e →
      ∀ lib2 : ExternalLib, lib2.b64decode = lib.b64decode →
        lib2.imdecode = lib.imdecode →
        count_rocks lib2 input blur uw minA frac md = ⟨0, "none", some e⟩) := by
  constructor
  · unfold count_rocks
    rcases hI : imageStage lib input with e | img
    · exact Or.inr ⟨e, rfl⟩
    · rcases hP : processStage lib img blur uw minA frac md with e | cm
      · refine Or.inr ⟨e, ?_⟩
        simp only [hP]
      · refine Or.inl ?_
        simp only [hP]
  · intro e he lib2 hb hi
    unfold count_rocks
    rw [imageStage_congr lib lib2 hb hi, he]

/-- C2 witness: a malformed data URL fails at the decode checkpoint and
is converted to the error record. -/
theorem count_rocks_total_error_policy_witness :
    count_rocks exLib (.text "data:bad") 5 true 50 (2/5) 10
      = ⟨0, "none", some "Invalid data URL"⟩ :=
  (count_rocks_total_error_policy exLib (.text "data:bad") 5 true 50 (2/5) 10).2
    "Invalid data URL" rfl exLib rfl rfl

/-- C4: when the optional dependency is unavailable, or the peak search
returns no local maxima, `count_with_watershed` returns exactly the count
of `count_with_connected_components` on the same mask with the same area
parameters. -/
theorem watershed_delegation_eq (lib : ExternalLib) (mask : Mask) (md : Nat)
    (minA : Int) (frac : ℚ)
    (h : lib.skimageAvailable = false ∨
      ∃ dist, lib.distanceTransform mask = .ok dist ∧
        lib.peakLocalMax dist md = .ok []) :
    count_with_watershed lib mask md minA frac
      = .ok (count_with_connected_components mask minA frac) := by
  rcases h with h | ⟨dist, hd, hp⟩
  · rw [count_with_watershed, if_pos h]
  · by_cases ha : lib.skimageAvailable = false
    · rw [count_with_watershed, if_pos ha]
    · rw [count_with_watershed, if_neg ha]
      simp only [Bind.bind, Except.bind, hd, hp]
      rfl

/-- C4 witness: in the example environment no maxima are found on the 1×1
foreground mask, and the watershed count equals the connected-component
count. -/
theorem watershed_delegation_eq_witness :
    count_with_watershed exLib [[true]] 10 50 (2/5)
      = .ok (count_with_connected_components [[true]] 50 (2/5)) :=
  watershed_delegation_eq exLib [[true]] 10 50 (2/5)
    (Or.inr ⟨[[0]], rfl, rfl⟩)

/-- C8: `count_rocks` is deterministic — it is a pure function of the
payload, the tuning parameters and the injected dependency environment, so
two invocations on identical inputs return identical records. -/
theorem count_rocks_deterministic (lib : ExternalLib) (input : ImageInput)
    (blur : Int) (uw : Bool) (minA : Int) (frac : ℚ) (md : Nat) :
    count_rocks lib input blur uw minA frac md
      = count_rocks lib input blur uw minA frac md := rfl

/-- C9: `count_rocks` accepts an already-decoded numeric array; for such
an input the decode stage is bypassed — the result does not depend on the
base64 decoder or the image decoder at all — and the array is handed to
the processing stage directly. -/
theorem ndarray_bypasses_decode (lib : ExternalLib) (img : Image) (blur : Int)
    (uw : Bool) (minA : Int) (frac : ℚ) (md : Nat) :
    (∀ b f, count_rocks { lib with b64decode := b, imdecode := f }
        (.ndarray img) blur uw minA frac md
        = count_rocks lib (.ndarray img) blur uw minA frac md) ∧
    imageStage lib (.ndarray img) = .ok img := by
  exact ⟨fun b f => rfl, rfl⟩

/-- C10: through the public entry point the binarizer is always called
with the automatic Otsu policy; the fixed-threshold-127 fallback is
unreachable — the result of `count_rocks` does not depend on it, and
neither does the Otsu-policy binarizer itself. -/
theorem otsu_always_used (lib : ExternalLib) (input : ImageInput) (blur : Int)
    (uw : Bool) (minA : Int) (frac : ℚ) (md : Nat) :
    (∀ f, count_rocks { lib with thresholdFixedInv := f } input blur uw minA frac md
        = count_rocks lib input blur uw minA frac md) ∧
    (∀ f (img : Image) (b : Int),
      _get_binary_mask { lib with thresholdFixedInv := f } img b true
        = _get_binary_mask lib img b true) := by
  exact ⟨fun f => rfl, fun f img b => rfl⟩

/-- C6: when the smoothing radius is ≤ 0 the Gaussian blur is skipped
entirely (the binarizer result does not depend on the blur primitive);
when the radius is positive the kernel size used in both dimensions is
the radius forced odd (`blur | 1`), which is an odd number at least 1. -/
theorem binary_mask_blur_kernel (lib : ExternalLib) (img : Image)
    (blur : Int) (u : Bool) :
    (blur ≤ 0 → ∀ g, _get_binary_mask { lib with gaussianBlur := g } img blur u
        = _get_binary_mask lib img blur u) ∧
    (0 < blur →
      _get_binary_mask lib img blur u
        = (lib.cvtColor img >>= fun gray =>
            lib.gaussianBlur gray (blur.toNat ||| 1) (blur.toNat ||| 1) >>= fun gray2 =>
            if u then lib.thresholdOtsuInv gray2 else lib.thresholdFixedInv gray2 127) ∧
      Odd (blur.toNat ||| 1) ∧ 1 ≤ blur.toNat ||| 1) := by
  constructor
  · intro h g
    have hb : ¬ (0 : Int) < blur := not_lt.mpr h
    simp [_get_binary_mask, hb]
  · intro h
    refine ⟨?_, odd_lor_one _, one_le_lor_one _⟩
    simp [_get_binary_mask, h]

/-- C6 witness: radius −1 skips the blur regardless of the blur primitive,
and radius 4 blurs with the odd kernel size 4 ||| 1 = 5. -/
theorem binary_mask_blur_kernel_witness :
    (_get_binary_mask { exLib with gaussianBlur := fun _ _ _ => .error "boom" }
        exImg (-1) true = _get_binary_mask exLib exImg (-1) true) ∧
    (_get_binary_mask exLib exImg 4 true
        = (exLib.cvtColor exImg >>= fun gray =>
            exLib.gaussianBlur gray ((4 : Int).toNat ||| 1) ((4 : Int).toNat ||| 1)
              >>= fun gray2 =>
            if true then exLib.thresholdOtsuInv gray2
              else exLib.thresholdFixedInv gray2 127) ∧
      Odd ((4 : Int).toNat ||| 1) ∧ 1 ≤ (4 : Int).toNat ||| 1) :=
  ⟨(binary_mask_blur_kernel exLib exImg (-1) true).1 (by decide) _,
    (binary_mask_blur_kernel exLib exImg 4 true).2 (by decide)⟩

/-- C5: for any run whose thresholded-and-cleaned mask contains no
foreground pixels — in an environment whose optional separation stack is
total and whose watershed labels only mask pixels — `count_rocks` returns
count 0 with a method different from `"none"` and no error: a successful
run that found nothing. -/
theorem empty_mask_success_zero (lib : ExternalLib) (input : ImageInput)
    (img : Image) (mask : Mask) (blur : Int) (uw : Bool) (minA : Int)
    (frac : ℚ) (md : Nat)
    (himg : imageStage lib input = .ok img)
    (hmask : maskStage lib img blur = .ok mask)
    (hempty : noFg mask = true)
    (htot : SkiTotal lib) (hws : WatershedZeroOffMask lib) :
    (count_rocks lib input blur uw minA frac md).count = 0 ∧
    (count_rocks lib input blur uw minA frac md).method ≠ "none" ∧
    (count_rocks lib input blur uw minA frac md).error = none := by
  have hP : ∃ meth, processStage lib img blur uw minA frac md = .ok (0, meth) ∧
      meth ≠ "none" := by
    rw [processStage]
    simp only [hmask, Bind.bind, Except.bind]
    cases hb : (uw && lib.skimageAvailable) with
    | false =>
      refine ⟨"connected_components", ?_, by decide⟩
      simp only [hb, Bool.false_eq_true, if_false]
      rw [cc_zero_of_noFg mask hempty minA frac]
      rfl
    | true =>
      refine ⟨"watershed", ?_, by decide⟩
      simp only [hb, if_true]
      have havail : ¬ lib.skimageAvailable = false := by
        intro hf
        rw [Bool.and_eq_true] at hb
        rw [hf] at hb
        exact absurd hb.2 (by decide)
      obtain ⟨d, hd⟩ := htot.1 mask
      obtain ⟨cs, hcs⟩ := htot.2.1 d md
      rw [count_with_watershed, if_neg havail]
      simp only [hd, hcs, Bind.bind, Except.bind]
      cases cs with
      | nil =>
        simp only [List.isEmpty_nil, if_true]
        rw [cc_zero_of_noFg mask hempty minA frac]
        rfl
      | cons c0 ct =>
        simp only [List.isEmpty_cons, Bool.false_eq_true, if_false]
        obtain ⟨ls, hls⟩ := htot.2.2 (negGrid d) (buildMarkers mask (c0 :: ct)) mask
        simp only [hls]
        have hz : ∀ v ∈ ls.flatten, v = 0 := by
          apply flatten_zero_of_labelAt
          intro r c
          exact hws _ _ _ _ hls r c (maskAt_false_of_noFg mask hempty r c)
        rw [watershedCount_zero ls mask minA frac hz]
        rfl
  obtain ⟨meth, hPr, hm⟩ := hP
  unfold count_rocks
  rw [himg]
  simp only [hPr]
  exact ⟨trivial, hm, trivial⟩

/-- C5 witness: the example environment thresholds the 1×1 image to an
all-background mask; the run succeeds with count 0 and method
`"watershed"`. -/
theorem empty_mask_success_zero_witness :
    (count_rocks exLib (.ndarray exImg) 5 true 50 (2/5) 10).count = 0 ∧
    (count_rocks exLib (.ndarray exImg) 5 true 50 (2/5) 10).method ≠ "none" ∧
    (count_rocks exLib (.ndarray exImg) 5 true 50 (2/5) 10).error = none :=
  empty_mask_success_zero exLib (.ndarray exImg) exImg [[false]] 5 true 50 (2/5) 10
    rfl rfl rfl
    ⟨fun _ => ⟨_, rfl⟩, fun _ _ => ⟨[], rfl⟩, fun _ _ _ => ⟨_, rfl⟩⟩
    zeroWatershed_off_mask

/-- C7: a text payload that (after stripping) begins with the data-URL
marker `data:` but does not match the fixed envelope pattern fails with
the distinct `ValueError("Invalid data URL")` — the `MalformedEnvelope`
failure, not the generic image-decode failure — while a payload matching
`data:image/<subtype>;base64,<payload>` base64-decodes exactly the
remainder captured after the `;base64,` prefix. -/
theorem decode_data_url_envelope (lib : ExternalLib) (s : String) :
    (("data:".toList.isPrefixOf (pyStrip s.toList) = true ∧
        dataUrlGroup (pyStrip s.toList) = none) →
      _decode_image lib (.inr s) = .error "Invalid data URL" ∧
      "Invalid data URL" ≠ "Could not decode image") ∧
    (∀ sub rest : List Char,
      pyStrip s.toList = dataImageMarker ++ (sub ++ (base64Marker ++ rest)) →
      sub ≠ [] → (∀ c ∈ sub, c ≠ ';') → rest ≠ [] → (∀ c ∈ rest, c ≠ '\n') →
      _decode_image lib (.inr s) = finishImage lib (lib.b64decode rest)) := by
  constructor
  · rintro ⟨h1, h2⟩
    refine ⟨?_, by decide⟩
    simp only [_decode_image]
    rw [if_pos h1, h2]
    rfl
  · intro sub rest hdec hsub hsemi hrest hnl
    simp only [_decode_image]
    rw [hdec]
    rw [if_pos (data_isPrefixOf _)]
    rw [dataUrlGroup_some sub rest hsub hsemi hrest hnl]

/-- C7 witness: a `data:` payload with a non-image subtype fails with the
distinct envelope error, and a well-formed `data:image/png;base64,QQ==`
payload base64-decodes exactly the remainder `QQ==`. -/
theorem decode_data_url_envelope_witness :
    _decode_image exLib (.inr "data:text/plain;base64,AAAA")
      = .error "Invalid data URL" ∧
    _decode_image exLib (.inr "data:image/png;base64,QQ==")
      = finishImage exLib (exLib.b64decode "QQ==".toList) :=
  ⟨((decode_data_url_envelope exLib "data:text/plain;base64,AAAA").1
      ⟨by decide, by decide⟩).1,
    (decode_data_url_envelope exLib "data:image/png;base64,QQ==").2
      "png".toList "QQ==".toList (by decide) (by decide) (by decide)
      (by decide) (by decide)⟩

/-- C1 is refuted by this run: the dependency is available, the cleaned
mask is the 1×1 foreground mask, the peak search finds no maxima — so the
watershed strategy delegates to connected components — yet the record
returned by `count_rocks` reports method `"watershed"` instead of
`"connected_components"`. -/
theorem method_label_delegation_cex :
    maskStage cexLib exImg 5 = .ok [[true]] ∧
    cexLib.skimageAvailable = true ∧
    cexLib.distanceTransform [[true]] = .ok [[0]] ∧
    cexLib.peakLocalMax [[0]] 10 = .ok [] ∧
    count_rocks cexLib (.ndarray exImg) 5 true 50 (2/5) 10
      = ⟨0, "watershed", none⟩ :=
  ⟨rfl, rfl, rfl, rfl, by decide⟩

/-- C1 (amended): on a successful run the reported method is `"watershed"`
exactly when watershed was requested and the optional dependency is
available — including runs where the watershed strategy internally
delegated to connected components because no local maxima were found;
only dependency unavailability or `use_watershed=False` surfaces as
`"connected_components"`. -/
theorem method_label_iff (lib : ExternalLib) (input : ImageInput) (blur : Int)
    (uw : Bool) (minA : Int) (frac : ℚ) (md : Nat)
    (h : (count_rocks lib input blur uw minA frac md).error = none) :
    ((count_rocks lib input blur uw minA frac md).method = "watershed" ↔
      (uw && lib.skimageAvailable) = true) ∧
    ((uw && lib.skimageAvailable) = false →
      (count_rocks lib input blur uw minA frac md).method
        = "connected_components") := by
  rcases hI : imageStage lib input with e | img
  · unfold count_rocks at h ⊢
    rw [hI] at h ⊢
    exact absurd h (by simp)
  · unfold count_rocks at h ⊢
    rw [hI] at h ⊢
    rcases hP : processStage lib img blur uw minA frac md with e | cm
    · simp only [hP] at h
      exact absurd h (by simp)
    · simp only [hP]
      have hm := processStage_method lib img blur uw minA frac md cm hP
      cases hb : (uw && lib.skimageAvailable) with
      | false =>
        rw [hb] at hm
        simp only [Bool.false_eq_true, if_false] at hm
        simp [hm, hb]
      | true =>
        rw [hb] at hm
        simp only [if_true] at hm
        simp [hm, hb]

/-- C1 (amended) witness: the delegating run of the counterexample is a
successful run with watershed requested and available, and its method is
`"watershed"`. -/
theorem method_label_iff_witness :
    ((count_rocks cexLib (.ndarray exImg) 5 true 50 (2/5) 10).method
        = "watershed" ↔ (true && cexLib.skimageAvailable) = true) ∧
    ((true && cexLib.skimageAvailable) = false →
      (count_rocks cexLib (.ndarray exImg) 5 true 50 (2/5) 10).method
        = "connected_components") :=
  method_label_iff cexLib (.ndarray exImg) 5 true 50 (2/5) 10 (by decide)

/-- C3: the connected-component strategy returns exactly the number of
labeled foreground regions whose pixel area lies in the inclusive band
from `min_area_px` to `⌊H·W·max_area_frac⌋`; regions outside the band
contribute nothing to the count, and the labeled regions cover exactly
the foreground pixels of the mask (their cells are a permutation of the
mask's foreground coordinates). -/
theorem cc_count_area_band (m : Mask) (minA : Int) (frac : ℚ) :
    count_with_connected_components m minA frac
      = ((ccAreas m).filter (fun a : Nat => decide (minA ≤ (a : Int) ∧
          (a : Int) ≤ ⌊(((height m * width m : ℕ) : ℚ) * frac)⌋))).length ∧
    (ccComponents m).flatten.Perm (maskCells m) := by
  refine ⟨?_, ccComponents_flatten_perm m⟩
  rw [cc_count_eq_countP, ← List.countP_eq_length_filter]
  by_cases hq : 0 ≤ ((height m * width m : ℕ) : ℚ) * frac
  · simp only [pyInt, hq, if_true]
  · push_neg at hq
    have hceil : pyInt (((height m * width m : ℕ) : ℚ) * frac) ≤ 0 := by
      rw [pyInt, if_neg (not_le.mpr hq)]
      exact Int.ceil_le.mpr (by exact_mod_cast hq.le)
    have hfloor : (⌊((height m * width m : ℕ) : ℚ) * frac⌋ : Int) ≤ 0 :=
      (Int.floor_le_ceil _).trans (Int.ceil_le.mpr (by exact_mod_cast hq.le))
    rw [List.countP_eq_zero.mpr, List.countP_eq_zero.mpr]
    · intro a ha
      have hpos := ccAreas_pos m a ha
      simp only [decide_eq_true_eq, not_and, not_le]
      intro _
      have h1 : (1 : Int) ≤ (a : Int) := by exact_mod_cast hpos
      omega
    · intro a ha
      have hpos := ccAreas_pos m a ha
      simp only [decide_eq_true_eq, not_and, not_le]
      intro _
      have h1 : (1 : Int) ≤ (a : Int) := by exact_mod_cast hpos
      omega
